import Mathlib

/-!
Verification of the GeNN OpenCL/CUDA code-generator core.

Shallow embedding of the code under `src/` :
* `src/src/genn/backends/opencl/backend.cc` (OpenCL backend)
* `src/backend/cuda_backend.h` (CUDA prototype backend)
* `src/include/genn/genn/code_generator/modelSpecMerged.h` (group merging)

Machine integers are modelled by `Nat` (the quantities involved are sizes and
thread counts, far from overflow); emitted text is modelled as lists of the
strings the generator writes to its `CodeStream`; fallible paths return
`Except`/`Option`.
-/

namespace GeNN

/-- Modelled from the spec: `ceilDivide` lives in the repository utilities which
are not under `src/`; the spec describes the computation as
`ceilDiv(idTotal, workgroupSize)`, rounding the quotient up. -/
def ceilDivide (numerator denominator : Nat) : Nat :=
  (numerator + denominator - 1) / denominator

/-- Modelled from the spec: `padSize` (repository utilities, not under `src/`)
returns the per-member thread count "rounded up to a workgroup-size multiple". -/
def padSize (size blockSize : Nat) : Nat :=
  ceilDivide size blockSize * blockSize

/-- Embedding of `Backend::divideKernelStreamInParts` (backend.cc:2173-2180): the kernel
source string is cut into `ceilDivide(length, partLength)` parts, part `i`
being `substr(i * partLength, partLength)`.  Strings are modelled as `List Char`. -/
def divideKernelStreamInParts (kernelStr : List Char) (partLength : Nat) :
    List (List Char) :=
  (List.range (ceilDivide kernelStr.length partLength)).map
    (fun i => (kernelStr.drop (i * partLength)).take partLength)

/-- backend.cc:2178: each part is emitted wrapped as a raw-string literal. -/
def divideKernelStreamEmitted (kernelStr : List Char) (partLength : Nat) :
    List String :=
  (divideKernelStreamInParts kernelStr partLength).map
    (fun part => "R\"(" ++ String.mk part ++ ")\"")

theorem ceilDivide_zero_left (d : Nat) (hd : 0 < d) : ceilDivide 0 d = 0 := by
  simp only [ceilDivide, Nat.zero_add]
  exact Nat.div_eq_of_lt (Nat.sub_lt hd Nat.one_pos)

theorem ceilDivide_sub (n L : Nat) (hL : 0 < L) (hn : 0 < n) :
    ceilDivide n L = ceilDivide (n - L) L + 1 := by
  rcases Nat.lt_or_ge L n with h | h
  · have hrw : n + L - 1 = ((n - L) + L - 1) + L := by omega
    simp only [ceilDivide, hrw]
    rw [Nat.add_div_right _ hL]
  · -- here 0 < n ≤ L, so there is exactly one part
    have h1 : n - L = 0 := by omega
    have h2 : (n + L - 1) / L = 1 := Nat.div_eq_of_lt_le (by omega) (by omega)
    rw [ceilDivide, h2, h1, ceilDivide_zero_left L hL]

theorem divideKernelStream_cons (s : List Char) (L : Nat) (hL : 0 < L)
    (hs : 0 < s.length) :
    divideKernelStreamInParts s L =
      s.take L :: divideKernelStreamInParts (s.drop L) L := by
  unfold divideKernelStreamInParts
  rw [ceilDivide_sub s.length L hL hs, List.range_succ_eq_map]
  simp only [List.map_cons, List.map_map, Nat.zero_mul, List.drop_zero,
    List.length_drop]
  congr 1
  apply List.map_congr_left
  intro i _
  simp only [Function.comp_apply]
  rw [List.drop_drop, Nat.succ_mul]
  ring_nf

theorem divideKernelStream_join (L : Nat) (hL : 0 < L) :
    ∀ s : List Char, (divideKernelStreamInParts s L).flatten = s := by
  have main : ∀ (n : Nat) (s : List Char), s.length ≤ n →
      (divideKernelStreamInParts s L).flatten = s := by
    intro n
    induction n with
    | zero =>
      intro s hs
      have : s = [] := List.eq_nil_of_length_eq_zero (Nat.le_zero.mp hs)
      subst this
      simp [divideKernelStreamInParts, ceilDivide_zero_left L hL]
    | succ n ih =>
      intro s hs
      rcases Nat.eq_zero_or_pos s.length with h0 | hpos
      · have : s = [] := List.eq_nil_of_length_eq_zero h0
        subst this
        simp [divideKernelStreamInParts, ceilDivide_zero_left L hL]
      · rw [divideKernelStream_cons s L hL hpos, List.flatten_cons]
        have hlen : (s.drop L).length ≤ n := by
          rw [List.length_drop]; omega
        rw [ih (s.drop L) hlen]
        exact List.take_append_drop L s
  exact fun s => main s.length s le_rfl

/-- C8: `divideKernelStreamInParts(os, kernelCode, partLength)` emits
`ceil(len/partLength)` chunks, every chunk has length at most `partLength`,
and the in-order concatenation of the chunk contents is exactly the original
kernel source string. -/
theorem C8_divideKernelStream_roundTrip (s : List Char) (L : Nat) (hL : 0 < L) :
    (divideKernelStreamInParts s L).length = ceilDivide s.length L ∧
    (∀ c ∈ divideKernelStreamInParts s L, c.length ≤ L) ∧
    (divideKernelStreamInParts s L).flatten = s := by
  refine ⟨?_, ?_, divideKernelStream_join L hL s⟩
  · simp [divideKernelStreamInParts]
  · intro c hc
    simp only [divideKernelStreamInParts, List.mem_map] at hc
    obtain ⟨i, _, rfl⟩ := hc
    simp

/-- Witness for C8 at the partLength the backend actually passes (5000). -/
theorem C8_divideKernelStream_roundTrip_witness :
    0 < 5000 ∧
    ((divideKernelStreamInParts "__kernel void updateNeuronsKernel".data 5000).length
        = ceilDivide "__kernel void updateNeuronsKernel".data.length 5000 ∧
      (∀ c ∈ divideKernelStreamInParts "__kernel void updateNeuronsKernel".data 5000,
          c.length ≤ 5000) ∧
      (divideKernelStreamInParts "__kernel void updateNeuronsKernel".data 5000).flatten
        = "__kernel void updateNeuronsKernel".data) :=
  ⟨by decide, C8_divideKernelStream_roundTrip "__kernel void updateNeuronsKernel".data 5000 (by decide)⟩

/-! Section: Parallel group dispatch (cuda_backend.h:71-103, backend.cc:2127-2133)

`genParallelGroup` walks the filtered groups keeping a running `idStart`; the
group reached with running start `START` and padded size `PAD` is guarded by
`id >= START && id < START+PAD` (lower bound elided while `START == 0`) and
`idStart` then advances by `PAD`.  `parallelGroupRanges` records the
`(START, PAD)` pair of each filtered-in group in emission order, and
`genParallelGroupFinalId` the final accumulated `idStart`. -/

/-- The `(START, PAD)` guard ranges produced by the `genParallelGroup` loop
(cuda_backend.h:82-99) over the already-filtered padded sizes. -/
def parallelGroupRanges (pads : List Nat) (idStart : Nat) : List (Nat × Nat) :=
  match pads with
  | [] => []
  | p :: ps => (idStart, p) :: parallelGroupRanges ps (idStart + p)

/-- The final accumulated `idStart` of the `genParallelGroup` loop
(`idStart += paddedSize`, cuda_backend.h:99). -/
def genParallelGroupFinalId (pads : List Nat) (idStart : Nat) : Nat :=
  pads.foldl (· + ·) idStart

/-- Embedding of `Backend::genKernelDimensions` (backend.cc:2127-2133): the global work size
is `workgroupSize * ceilDivide(numThreads, workgroupSize)`. -/
def genKernelDimensionsGlobal (workgroupSize numThreads : Nat) : Nat :=
  workgroupSize * ceilDivide numThreads workgroupSize

/-- The padded sizes of the filtered-in groups, in iteration order
(cuda_backend.h:79-82). -/
def filteredPads {G : Type} (groups : List G) (filter : G → Bool)
    (paddedSize : G → Nat) : List Nat :=
  (groups.filter filter).map paddedSize

theorem parallelGroupRanges_start_le {pads : List Nat} {s0 : Nat} :
    ∀ r ∈ parallelGroupRanges pads s0, s0 ≤ r.1 := by
  induction pads generalizing s0 with
  | nil => intro r hr; cases hr
  | cons p ps ih =>
    intro r hr
    simp only [parallelGroupRanges] at hr
    rcases List.mem_cons.mp hr with rfl | hr
    · exact Nat.le_refl s0
    · exact Nat.le_trans (Nat.le_add_right s0 p) (ih r hr)

theorem parallelGroupRanges_chain (pads : List Nat) (s0 : Nat) :
    (parallelGroupRanges pads s0).Chain' (fun a b => b.1 = a.1 + a.2) := by
  induction pads generalizing s0 with
  | nil => exact List.chain'_nil
  | cons p ps ih =>
    cases ps with
    | nil => simp [parallelGroupRanges]
    | cons q qs =>
      refine List.Chain'.cons ?_ (ih (s0 + p))
      simp [parallelGroupRanges]

theorem parallelGroupRanges_pairwise (pads : List Nat) (s0 : Nat) :
    (parallelGroupRanges pads s0).Pairwise (fun a b => a.1 + a.2 ≤ b.1) := by
  induction pads generalizing s0 with
  | nil => exact List.Pairwise.nil
  | cons p ps ih =>
    refine List.Pairwise.cons ?_ (ih (s0 + p))
    intro r hr
    have := parallelGroupRanges_start_le r hr
    simpa using this

theorem parallelGroupRanges_pads (pads : List Nat) (s0 : Nat) :
    (parallelGroupRanges pads s0).map Prod.snd = pads := by
  induction pads generalizing s0 with
  | nil => rfl
  | cons p ps ih => simp [parallelGroupRanges, ih]

theorem genParallelGroupFinalId_eq (pads : List Nat) (s0 : Nat) :
    genParallelGroupFinalId pads s0 = s0 + pads.sum := by
  induction pads generalizing s0 with
  | nil => simp [genParallelGroupFinalId]
  | cons p ps ih =>
    simp only [genParallelGroupFinalId, List.foldl_cons] at *
    rw [ih]
    simp [List.sum_cons]
    omega

theorem genKernelDimensionsGlobal_of_dvd {wg n : Nat} (hwg : 0 < wg)
    (hdvd : wg ∣ n) : genKernelDimensionsGlobal wg n = n := by
  obtain ⟨k, rfl⟩ := hdvd
  unfold genKernelDimensionsGlobal ceilDivide
  have hrw : wg * k + wg - 1 = wg * k + (wg - 1) := by omega
  rw [hrw, Nat.mul_add_div hwg]
  have : (wg - 1) / wg = 0 := Nat.div_eq_of_lt (by omega)
  rw [this, Nat.add_zero]

/-- C2: over a filtered merged-group list the `genParallelGroup` guard ranges
are contiguous (each start is the previous start plus the previous padded
size, beginning at the `idStart` passed in), pairwise disjoint, carry exactly
the padded sizes, and the final accumulated `idStart` is the sum of the
padded sizes over all filtered-in groups; when every padded size is a
multiple of the workgroup size, that sum equals the total global thread count
`genKernelDimensions` computes (`ceilDivide(numThreads, wg) * wg`). -/
theorem C2_dispatch_coverage_disjoint {G : Type} (groups : List G)
    (filt : G → Bool) (paddedSize : G → Nat) (wg s0 : Nat) (hwg : 0 < wg)
    (hmul : ∀ g ∈ groups, filt g = true → wg ∣ paddedSize g) :
    (parallelGroupRanges (filteredPads groups filt paddedSize) s0).Chain'
        (fun a b => b.1 = a.1 + a.2) ∧
    (∀ r ∈ parallelGroupRanges (filteredPads groups filt paddedSize) s0,
        s0 ≤ r.1) ∧
    (parallelGroupRanges (filteredPads groups filt paddedSize) s0).Pairwise
        (fun a b => a.1 + a.2 ≤ b.1) ∧
    (parallelGroupRanges (filteredPads groups filt paddedSize) s0).map Prod.snd
        = filteredPads groups filt paddedSize ∧
    genParallelGroupFinalId (filteredPads groups filt paddedSize) s0
        = s0 + (filteredPads groups filt paddedSize).sum ∧
    genKernelDimensionsGlobal wg
        (genParallelGroupFinalId (filteredPads groups filt paddedSize) 0)
      = genParallelGroupFinalId (filteredPads groups filt paddedSize) 0 := by
  refine ⟨parallelGroupRanges_chain _ _, fun r hr => parallelGroupRanges_start_le r hr,
    parallelGroupRanges_pairwise _ _, parallelGroupRanges_pads _ _,
    genParallelGroupFinalId_eq _ _, ?_⟩
  rw [genParallelGroupFinalId_eq, Nat.zero_add]
  refine genKernelDimensionsGlobal_of_dvd hwg ?_
  refine List.dvd_sum ?_
  intro p hp
  simp only [filteredPads, List.mem_map, List.mem_filter] at hp
  obtain ⟨g, ⟨hg, hfil⟩, rfl⟩ := hp
  exact hmul g hg hfil

/-- Witness for C2: two neuron groups of 100 and 250 neurons, workgroup size
32, padded with `padSize` exactly as the neuron-update call site does. -/
theorem C2_dispatch_coverage_disjoint_witness :
    (0 < 32 ∧ (∀ g ∈ [100, 250], (fun (_ : Nat) => true) g = true →
        32 ∣ (fun n => padSize n 32) g)) ∧
    ((parallelGroupRanges (filteredPads [100, 250] (fun _ => true)
          (fun n => padSize n 32)) 0).Chain' (fun a b => b.1 = a.1 + a.2) ∧
      (∀ r ∈ parallelGroupRanges (filteredPads [100, 250] (fun _ => true)
          (fun n => padSize n 32)) 0, 0 ≤ r.1) ∧
      (parallelGroupRanges (filteredPads [100, 250] (fun _ => true)
          (fun n => padSize n 32)) 0).Pairwise (fun a b => a.1 + a.2 ≤ b.1) ∧
      (parallelGroupRanges (filteredPads [100, 250] (fun _ => true)
          (fun n => padSize n 32)) 0).map Prod.snd
        = filteredPads [100, 250] (fun _ => true) (fun n => padSize n 32) ∧
      genParallelGroupFinalId (filteredPads [100, 250] (fun _ => true)
          (fun n => padSize n 32)) 0
        = 0 + (filteredPads [100, 250] (fun _ => true) (fun n => padSize n 32)).sum ∧
      genKernelDimensionsGlobal 32
          (genParallelGroupFinalId (filteredPads [100, 250] (fun _ => true)
            (fun n => padSize n 32)) 0)
        = genParallelGroupFinalId (filteredPads [100, 250] (fun _ => true)
            (fun n => padSize n 32)) 0) :=
  ⟨⟨by decide, by decide⟩,
    C2_dispatch_coverage_disjoint [100, 250] (fun _ => true) (fun n => padSize n 32)
      32 0 (by decide) (by decide)⟩

/-! Section: Substitution frames and the CUDA `genParallelGroup`
(cuda_backend.h:71-103) -/

/-- Modelled from the spec: `substitution_stack.h` is not under `src/`.  A
frame is a mapping from placeholder names to replacement strings (the parent
chain only matters for lookup, not for the duplicate check, so a frame is
modelled by its own variable list).  `addVarSubstitution(name, repl,
allowOverride=false)` "fails if `name` exists in *this* frame and override
not requested". -/
def addVarSubstitution (vars : List (String × String)) (name repl : String)
    (allowOverride : Bool) : Except String (List (String × String)) :=
  if allowOverride = false ∧ vars.any (fun v => v.1 == name) then
    Except.error ("variable " ++ name ++ " already bound in this frame")
  else
    Except.ok ((name, repl) :: vars.filter (fun v => !(v.1 == name)))

/-- One iteration of the `genParallelGroup` loop body (cuda_backend.h:81-101)
for a filtered-in group of padded size `pad`: emit the comment and the guard
(`if(id < PAD)` while the running `idStart` is 0, otherwise
`if(id >= START && id < START+PAD)` plus the `lid` binding), add the `"id"`
substitution to the shared `popSubs` frame, run the handler, and advance
`idStart`.  The state is `(popSubs vars, idStart, emitted lines)`. -/
def genParallelGroupStep {G : Type} (gname : G → String) (paddedSize : G → Nat)
    (handler : G → List (String × String) → List String) (g : G)
    (st : List (String × String) × Nat × List String) :
    Except String (List (String × String) × Nat × List String) :=
  let pad := paddedSize g
  let idStart := st.2.1
  let commented := st.2.2 ++ ["// Group " ++ gname g]
  if idStart = 0 then
    (addVarSubstitution st.1 "id" "id" false).map fun vars =>
      (vars, idStart + pad,
        (commented ++ ["if(id < " ++ toString pad ++ ")", "\x7b"]
          ++ handler g vars ++ ["\x7d"]))
  else
    (addVarSubstitution st.1 "id" "lid" false).map fun vars =>
      (vars, idStart + pad,
        (commented
          ++ ["if(id >= " ++ toString idStart ++ " && id < "
                ++ toString (idStart + pad) ++ ")", "\x7b",
              "const unsigned int lid = id - " ++ toString idStart ++ ";"]
          ++ handler g vars ++ ["\x7d"]))

/-- Embedding of `CUDA::CodeGenerator::genParallelGroup` (cuda_backend.h:71-103): a single
child frame `popSubs` is constructed before the loop (line 78) and shared by
every iteration; each filtered-in group runs `genParallelGroupStep` on it. -/
def genParallelGroupCUDA {G : Type} (gname : G → String) (paddedSize : G → Nat)
    (filt : G → Bool) (handler : G → List (String × String) → List String)
    (groups : List G) (idStart0 : Nat) :
    Except String (List (String × String) × Nat × List String) :=
  (groups.filter filt).foldlM
    (fun st g => genParallelGroupStep gname paddedSize handler g st)
    (([] : List (String × String)), idStart0, ([] : List String))

/-- C5 (failing evaluation): with two filtered-in groups the shared `popSubs`
frame already holds an `"id"` binding when the second group is reached, so the
second `addVarSubstitution("id", ..., allowOverride=false)` fails — the code
does not give each handler invocation its own child frame. -/
theorem C5_sharedFrame_secondGroup_fails :
    genParallelGroupCUDA (fun g : String × Nat => g.1) (fun g => g.2)
        (fun _ => true) (fun _ _ => []) [("Pop1", 32), ("Pop2", 64)] 0
      = Except.error ("variable id already bound in this frame") := by
  rfl

/-! Section: Group merging (`ModelSpecMerged::createMergedGroups`,
modelSpecMerged.h:89-151) -/

/-- The inner `for(auto &p : protoMergedGroups)` search of
`createMergedGroups` (modelSpecMerged.h:101-122): the candidate group is
appended to the first proto-merged group whose archetype (front element)
`canMerge` accepts; if none accepts, a new proto-merged group holding only
the candidate is appended at the end.  (The source asserts every
proto-merged group is non-empty; an empty one is skipped here.) -/
def insertGroup {G : Type} (canMerge : G → G → Bool) (g : G) :
    List (List G) → List (List G)
  | [] => [[g]]
  | [] :: ps => [] :: insertGroup canMerge g ps
  | (archetype :: p) :: ps =>
    if canMerge archetype g then (archetype :: p ++ [g]) :: ps
    else (archetype :: p) :: insertGroup canMerge g ps

/-- Embedding of `ModelSpecMerged::createMergedGroups` (modelSpecMerged.h:96-123): the
`while(!unmergedGroups.empty())` loop removes the *last* group from the input
vector each iteration (`back()`/`pop_back()`), so the input is processed in
reverse order; each removed group goes through the first-fit insertion. -/
def createMergedGroups {G : Type} (canMerge : G → G → Bool)
    (unmergedGroups : List G) : List (List G) :=
  unmergedGroups.reverse.foldl (fun protos g => insertGroup canMerge g protos) []

/-- The filtered overload of `createMergedGroups` (modelSpecMerged.h:135-151):
groups passing the filter are collected in input order and merged. -/
def createMergedGroupsFiltered {G : Type} (canMerge : G → G → Bool)
    (filt : G → Bool) (groups : List G) : List (List G) :=
  createMergedGroups canMerge (groups.filter filt)

/-- Whether the archetype (first member) of a proto-merged group accepts a
candidate group. -/
def archetypeAccepts {G : Type} (canMerge : G → G → Bool) (g : G) :
    List G → Bool
  | [] => false
  | archetype :: _ => canMerge archetype g

/-- Spec-side statement of first-fit insertion, following the claim: every
proto-merged group before the insertion point rejects the candidate, the
candidate is appended to the first accepting one, and if none accepts a new
singleton proto-merged group is appended at the end. -/
def firstFitInsert {G : Type} (canMerge : G → G → Bool) (g : G)
    (protos : List (List G)) : List (List G) :=
  match protos.dropWhile (fun p => !archetypeAccepts canMerge g p) with
  | [] => protos ++ [[g]]
  | p :: rest =>
    protos.takeWhile (fun p => !archetypeAccepts canMerge g p)
      ++ (p ++ [g]) :: rest

theorem firstFitInsert_cons_accept {G : Type} {canMerge : G → G → Bool}
    {g : G} {p : List G} (ps : List (List G))
    (h : archetypeAccepts canMerge g p = true) :
    firstFitInsert canMerge g (p :: ps) = (p ++ [g]) :: ps := by
  simp [firstFitInsert, List.dropWhile_cons, List.takeWhile_cons, h]

theorem firstFitInsert_cons_reject {G : Type} {canMerge : G → G → Bool}
    {g : G} {p : List G} (ps : List (List G))
    (h : archetypeAccepts canMerge g p = false) :
    firstFitInsert canMerge g (p :: ps) = p :: firstFitInsert canMerge g ps := by
  simp only [firstFitInsert, List.dropWhile_cons, List.takeWhile_cons, h,
    Bool.not_false, if_true]
  cases hd : ps.dropWhile (fun p => !archetypeAccepts canMerge g p) with
  | nil => simp
  | cons q rest => simp

theorem insertGroup_eq_firstFit {G : Type} (canMerge : G → G → Bool) (g : G) :
    ∀ protos : List (List G),
      insertGroup canMerge g protos = firstFitInsert canMerge g protos := by
  intro protos
  induction protos with
  | nil => rfl
  | cons p ps ih =>
    cases p with
    | nil =>
      rw [firstFitInsert_cons_reject ps (by rfl)]
      simp only [insertGroup, ih]
    | cons archetype rest =>
      by_cases hc : canMerge archetype g = true
      · rw [firstFitInsert_cons_accept ps (by simpa [archetypeAccepts] using hc)]
        simp [insertGroup, hc]
      · rw [firstFitInsert_cons_reject ps
          (by simp [archetypeAccepts, Bool.of_not_eq_true hc])]
        simp only [insertGroup, hc, Bool.false_eq_true, if_false, ih]

theorem insertGroup_sublists_ne_nil {G : Type} (canMerge : G → G → Bool)
    (g : G) (protos : List (List G)) (h : ∀ p ∈ protos, p ≠ []) :
    ∀ p ∈ insertGroup canMerge g protos, p ≠ [] := by
  induction protos with
  | nil =>
    intro p hp
    simp only [insertGroup, List.mem_singleton] at hp
    subst hp
    exact List.cons_ne_nil g []
  | cons q qs ih =>
    intro p hp
    cases q with
    | nil => exact absurd rfl (h [] (List.mem_cons_self [] qs))
    | cons archetype rest =>
      by_cases hc : canMerge archetype g = true
      · simp only [insertGroup, hc, if_true] at hp
        rcases List.mem_cons.mp hp with rfl | hp
        · exact List.cons_ne_nil archetype (rest ++ [g])
        · exact h p (List.mem_cons_of_mem _ hp)
      · simp only [insertGroup, hc, Bool.false_eq_true, if_false] at hp
        rcases List.mem_cons.mp hp with rfl | hp
        · exact List.cons_ne_nil archetype rest
        · exact ih (fun r hr => h r (List.mem_cons_of_mem _ hr)) p hp

theorem insertGroup_flatten_perm {G : Type} (canMerge : G → G → Bool) (g : G)
    (protos : List (List G)) :
    (insertGroup canMerge g protos).flatten.Perm (g :: protos.flatten) := by
  induction protos with
  | nil => simp [insertGroup]
  | cons q qs ih =>
    cases q with
    | nil =>
      simp only [insertGroup, List.flatten_cons, List.nil_append]
      exact ih
    | cons archetype rest =>
      by_cases hc : canMerge archetype g = true
      · simp only [insertGroup, hc, if_true, List.flatten_cons]
        have hrw : (archetype :: rest ++ [g]) ++ qs.flatten
            = (archetype :: rest) ++ g :: qs.flatten := by simp
        rw [hrw]
        exact List.perm_middle
      · simp only [insertGroup, hc, Bool.false_eq_true, if_false,
          List.flatten_cons]
        exact (ih.append_left (archetype :: rest)).trans List.perm_middle

theorem createMergedGroups_foldl_perm {G : Type} (canMerge : G → G → Bool) :
    ∀ (l : List G) (protos : List (List G)),
      (l.foldl (fun ps g => insertGroup canMerge g ps) protos).flatten.Perm
        (protos.flatten ++ l) := by
  intro l
  induction l with
  | nil => intro protos; simp
  | cons a l ih =>
    intro protos
    simp only [List.foldl_cons]
    refine ((ih (insertGroup canMerge a protos)).trans ?_)
    refine ((insertGroup_flatten_perm canMerge a protos).append_right l).trans ?_
    exact List.perm_middle.symm

/-- C3: `createMergedGroups` is first-fit merging — the input groups are
processed in a deterministic order (last-to-first, via `back()`/`pop_back()`);
each group is appended to the first proto-merged group whose archetype the
`canMerge` predicate accepts (every earlier proto-merged group rejects it),
and otherwise starts a new proto-merged group at the end, so indices
0,1,2,... follow creation order; every input group ends up in exactly one
merged group (the concatenation of the merged groups is a permutation of the
input) and every merged group is non-empty. -/
theorem C3_createMergedGroups_firstFit {G : Type} (canMerge : G → G → Bool)
    (unmergedGroups : List G) :
    createMergedGroups canMerge unmergedGroups
        = unmergedGroups.reverse.foldl
            (fun protos g => firstFitInsert canMerge g protos) [] ∧
    (∀ p ∈ createMergedGroups canMerge unmergedGroups, p ≠ []) ∧
    (createMergedGroups canMerge unmergedGroups).flatten.Perm unmergedGroups := by
  refine ⟨?_, ?_, ?_⟩
  · unfold createMergedGroups
    congr 1
    funext protos g
    exact insertGroup_eq_firstFit canMerge g protos
  · unfold createMergedGroups
    generalize unmergedGroups.reverse = l
    have main : ∀ (l : List G) (protos : List (List G)),
        (∀ p ∈ protos, p ≠ []) →
        ∀ p ∈ l.foldl (fun ps g => insertGroup canMerge g ps) protos, p ≠ [] := by
      intro l
      induction l with
      | nil => intro protos h; exact h
      | cons a l ih =>
        intro protos h
        exact ih _ (insertGroup_sublists_ne_nil canMerge a protos h)
    exact main l [] (by intro p hp; cases hp)
  · have h := createMergedGroups_foldl_perm canMerge unmergedGroups.reverse []
    unfold createMergedGroups
    refine h.trans ?_
    simp only [List.flatten_nil, List.nil_append]
    exact unmergedGroups.reverse_perm

/-- A concrete non-transitive compatibility predicate: group 0 merges with
everything, all other groups merge only with themselves and group 0. -/
def exCanMerge (x y : Nat) : Bool :=
  x == 0 || y == 0 || x == y

/-- C4 counterexample: with `exCanMerge` (non-transitive) and input groups
`[1, 2, 0]`, `createMergedGroups` produces the single merged group
`[0, 2, 1]` (processing order is 0, 2, 1) whose members 2 and 1 satisfy
`exCanMerge 2 1 = false` — the claim that `canMerge(a, b)` holds for *every*
pair of members of a merged group is false for a general predicate. -/
theorem C4_merge_soundness_counterexample :
    ¬ (∀ p ∈ createMergedGroups exCanMerge [1, 2, 0],
        ∀ a ∈ p, ∀ b ∈ p, exCanMerge a b = true) := by
  intro h
  have h2 : (2 : Nat) ∈ [0, 2, 1] := by decide
  have h1 : (1 : Nat) ∈ [0, 2, 1] := by decide
  have hp : [0, 2, 1] ∈ createMergedGroups exCanMerge [1, 2, 0] := by decide
  have := h [0, 2, 1] hp 2 h2 1 h1
  simp [exCanMerge] at this

/-- Every proto-merged group built by the first-fit loop is non-empty and
every member beyond the archetype was accepted by the archetype when it was
inserted (modelSpecMerged.h:107: only `canMerge(p.front(), group)` is ever
tested). -/
def ProtoInv {G : Type} (canMerge : G → G → Bool)
    (protos : List (List G)) : Prop :=
  ∀ p ∈ protos, ∃ archetype rest, p = archetype :: rest ∧
    ∀ b ∈ rest, canMerge archetype b = true

theorem insertGroup_protoInv {G : Type} {canMerge : G → G → Bool} (g : G)
    {protos : List (List G)} (h : ProtoInv canMerge protos) :
    ProtoInv canMerge (insertGroup canMerge g protos) := by
  induction protos with
  | nil =>
    intro p hp
    simp only [insertGroup, List.mem_singleton] at hp
    exact ⟨g, [], hp, by intro b hb; cases hb⟩
  | cons q qs ih =>
    intro p hp
    obtain ⟨archetype, rest, rfl, hrest⟩ := h q (List.mem_cons_self q qs)
    by_cases hc : canMerge archetype g = true
    · simp only [insertGroup, hc, if_true] at hp
      rcases List.mem_cons.mp hp with rfl | hp
      · refine ⟨archetype, rest ++ [g], by simp, ?_⟩
        intro b hb
        rcases List.mem_append.mp hb with hb | hb
        · exact hrest b hb
        · rw [List.mem_singleton.mp hb]; exact hc
      · exact h p (List.mem_cons_of_mem _ hp)
    · simp only [insertGroup, hc, Bool.false_eq_true, if_false] at hp
      rcases List.mem_cons.mp hp with rfl | hp
      · exact ⟨archetype, rest, rfl, hrest⟩
      · exact ih (fun r hr => h r (List.mem_cons_of_mem _ hr)) p hp

theorem createMergedGroups_protoInv {G : Type} (canMerge : G → G → Bool)
    (unmergedGroups : List G) :
    ProtoInv canMerge (createMergedGroups canMerge unmergedGroups) := by
  unfold createMergedGroups
  generalize unmergedGroups.reverse = l
  have main : ∀ (l : List G) (protos : List (List G)),
      ProtoInv canMerge protos →
      ProtoInv canMerge
        (l.foldl (fun ps g => insertGroup canMerge g ps) protos) := by
    intro l
    induction l with
    | nil => intro protos h; exact h
    | cons a l ih =>
      intro protos h
      exact ih _ (insertGroup_protoInv a h)
  exact main l [] (by intro p hp; cases hp)

/-- C4 amended: the construction only guarantees that every non-archetype
member of a merged group was accepted by the archetype; full pairwise
compatibility of all members follows only when `canMerge` is reflexive,
symmetric and transitive (an equivalence-like predicate). -/
theorem C4_merge_soundness_amended {G : Type} (canMerge : G → G → Bool)
    (unmergedGroups : List G)
    (hRefl : ∀ a, canMerge a a = true)
    (hSymm : ∀ a b, canMerge a b = true → canMerge b a = true)
    (hTrans : ∀ a b c, canMerge a b = true → canMerge b c = true →
      canMerge a c = true) :
    ∀ p ∈ createMergedGroups canMerge unmergedGroups,
      ∀ a ∈ p, ∀ b ∈ p, canMerge a b = true := by
  intro p hp a ha b hb
  obtain ⟨archetype, rest, rfl, hrest⟩ :=
    createMergedGroups_protoInv canMerge unmergedGroups p hp
  have hXa : canMerge archetype a = true := by
    rcases List.mem_cons.mp ha with rfl | ha
    · exact hRefl a
    · exact hrest a ha
  have hXb : canMerge archetype b = true := by
    rcases List.mem_cons.mp hb with rfl | hb
    · exact hRefl b
    · exact hrest b hb
  exact hTrans a archetype b (hSymm archetype a hXa) hXb

/-- Witness for C4 amended with the equivalence predicate "same parity" over
`Fin 4` and four input groups. -/
theorem C4_merge_soundness_amended_witness :
    ((∀ a : Fin 4, (a.val % 2 == a.val % 2 : Bool) = true) ∧
      (∀ a b : Fin 4, (a.val % 2 == b.val % 2 : Bool) = true →
        (b.val % 2 == a.val % 2 : Bool) = true) ∧
      (∀ a b c : Fin 4, (a.val % 2 == b.val % 2 : Bool) = true →
        (b.val % 2 == c.val % 2 : Bool) = true →
        (a.val % 2 == c.val % 2 : Bool) = true)) ∧
    (∀ p ∈ createMergedGroups (fun a b : Fin 4 => a.val % 2 == b.val % 2)
        [0, 1, 2, 3], ∀ a ∈ p, ∀ b ∈ p,
        (a.val % 2 == b.val % 2 : Bool) = true) :=
  ⟨⟨by decide, by decide, by decide⟩,
    C4_merge_soundness_amended (fun a b : Fin 4 => a.val % 2 == b.val % 2)
      [0, 1, 2, 3] (by decide) (by decide) (by decide)⟩

/-! Section: Presynaptic update strategy selection (backend.cc:155-158, 2182-2194) -/

/-- A synapse group as far as strategy selection is concerned: its stable
name (used in the error message) and whatever attributes the compatibility
checks consult, abstracted into a payload type. -/
structure SynGroup (A : Type) where
  name : String
  attrs : A

/-- A registered presynaptic update strategy: a tag (e.g. "PreSpan",
"PostSpan") and its `isCompatible` predicate.  The concrete predicate bodies
live in `presynapticUpdateStrategy.cc`, which is not among the given sources; the
registry logic is parametric in them. -/
structure PresynStrategy (A : Type) where
  tag : String
  isCompatible : SynGroup A → Bool

/-- The `for (auto s = rbegin(); s != rend(); ++s)` scan of
`Backend::getPresynapticUpdateStrategy` (backend.cc:2186-2190), applied to an
already-reversed registry list: return the first compatible strategy. -/
def findCompatibleStrategy {A : Type} (sg : SynGroup A) :
    List (PresynStrategy A) → Option (PresynStrategy A)
  | [] => none
  | s :: rest =>
    if s.isCompatible sg then some s else findCompatibleStrategy sg rest

/-- Embedding of `Backend::getPresynapticUpdateStrategy` (backend.cc:2182-2194): scan the
registry backwards (so the latest-registered strategy wins) and return the
first compatible strategy; if none is compatible, throw a runtime error
naming the synapse group. -/
def getPresynapticUpdateStrategy {A : Type}
    (registry : List (PresynStrategy A)) (sg : SynGroup A) :
    Except String (PresynStrategy A) :=
  match findCompatibleStrategy sg registry.reverse with
  | some s => Except.ok s
  | none => Except.error
      ("Unable to find a suitable presynaptic update strategy for synapse group '"
        ++ sg.name ++ "'")

theorem findCompatibleStrategy_some {A : Type} (sg : SynGroup A) :
    ∀ (l : List (PresynStrategy A)) (s : PresynStrategy A),
      findCompatibleStrategy sg l = some s →
      s.isCompatible sg = true ∧
      ∃ pre post, l = pre ++ s :: post ∧
        ∀ r ∈ pre, r.isCompatible sg = false := by
  intro l
  induction l with
  | nil => intro s h; cases h
  | cons q rest ih =>
    intro s h
    by_cases hq : q.isCompatible sg = true
    · simp only [findCompatibleStrategy, hq, if_true, Option.some.injEq] at h
      subst h
      exact ⟨hq, [], rest, rfl, by intro r hr; cases hr⟩
    · simp only [findCompatibleStrategy, hq, Bool.false_eq_true, if_false] at h
      obtain ⟨hcomp, pre, post, rfl, hpre⟩ := ih s h
      refine ⟨hcomp, q :: pre, post, rfl, ?_⟩
      intro r hr
      rcases List.mem_cons.mp hr with rfl | hr
      · exact Bool.of_not_eq_true hq
      · exact hpre r hr

theorem findCompatibleStrategy_none {A : Type} (sg : SynGroup A) :
    ∀ l : List (PresynStrategy A),
      (∀ s ∈ l, s.isCompatible sg = false) →
      findCompatibleStrategy sg l = none := by
  intro l
  induction l with
  | nil => intro _; rfl
  | cons q rest ih =>
    intro h
    simp only [findCompatibleStrategy, h q (List.mem_cons_self q rest),
      Bool.false_eq_true, if_false]
    exact ih (fun s hs => h s (List.mem_cons_of_mem q hs))

/-- C6: `getPresynapticUpdateStrategy` scans the registry in
reverse-registration order and returns the first strategy compatible with
the synapse group: a returned strategy is compatible, every strategy
registered later than it is incompatible (latest-registered wins), and when
no registered strategy is compatible a runtime error naming the synapse
group is thrown. -/
theorem C6_strategy_selection {A : Type} (registry : List (PresynStrategy A))
    (sg : SynGroup A) :
    (∀ s, getPresynapticUpdateStrategy registry sg = Except.ok s →
      s.isCompatible sg = true ∧
      ∃ pre post, registry = pre ++ s :: post ∧
        ∀ r ∈ post, r.isCompatible sg = false) ∧
    ((∀ s ∈ registry, s.isCompatible sg = false) →
      getPresynapticUpdateStrategy registry sg = Except.error
        ("Unable to find a suitable presynaptic update strategy for synapse group '"
          ++ sg.name ++ "'")) := by
  constructor
  · intro s h
    unfold getPresynapticUpdateStrategy at h
    cases hf : findCompatibleStrategy sg registry.reverse with
    | none => rw [hf] at h; cases h
    | some s0 =>
      rw [hf] at h
      cases h
      obtain ⟨hcomp, pre, post, heq, hpre⟩ :=
        findCompatibleStrategy_some sg registry.reverse s hf
      refine ⟨hcomp, post.reverse, pre.reverse, ?_, ?_⟩
      · have : registry.reverse.reverse = (pre ++ s :: post).reverse := by
          rw [heq]
        simpa using this
      · intro r hr
        exact hpre r (List.mem_reverse.mp hr)
  · intro h
    unfold getPresynapticUpdateStrategy
    rw [findCompatibleStrategy_none sg registry.reverse
      (fun s hs => h s (List.mem_reverse.mp hs))]

/-- The registry as initialised in backend.cc:155-158 (PreSpan registered
first, then PostSpan), with placeholder compatibility predicates standing in
for the ones in `presynapticUpdateStrategy.cc`: here PreSpan accepts groups
with attribute `true` and PostSpan accepts everything. -/
def exampleRegistry : List (PresynStrategy Bool) :=
  [⟨"PreSpan", fun sg => sg.attrs⟩, ⟨"PostSpan", fun _ => true⟩]

/-- Witness for C6: on the example registry, the strategy returned for a
group both strategies accept is the later-registered PostSpan, and it is
compatible. -/
theorem C6_strategy_selection_witness :
    (getPresynapticUpdateStrategy exampleRegistry ⟨"Syn", true⟩).map
        (fun s => s.isCompatible ⟨"Syn", true⟩) = Except.ok true :=
  match hsel : getPresynapticUpdateStrategy exampleRegistry ⟨"Syn", true⟩ with
  | Except.ok s => by
    have hcomp := ((C6_strategy_selection exampleRegistry ⟨"Syn", true⟩).1
      s hsel).1
    simp [Except.map, hcomp]
  | Except.error e => by
    have : getPresynapticUpdateStrategy exampleRegistry ⟨"Syn", true⟩
        = Except.ok ⟨"PostSpan", fun _ => true⟩ := rfl
    rw [this] at hsel
    cases hsel

/-! Section: Extra-global-parameter push/pull (backend.cc:1711-1726) -/

/-- A variable location: the flag bits of `VarLocation` (HOST, DEVICE,
ZERO_COPY) that the backend tests with bitwise and. -/
structure VarLoc where
  host : Bool
  device : Bool
  zeroCopy : Bool

/-- Embedding of `Backend::genExtraGlobalParamPush` (backend.cc:1711-1718): if the
location lacks the ZERO_COPY flag, throw `Utils::ToBeImplemented`
naming the function; nothing is ever written to the output stream.  The
result pairs the thrown error (if any) with the text appended to `os`. -/
def genExtraGlobalParamPush (loc : VarLoc) : Option String × String :=
  if !loc.zeroCopy then (some "genExtraGlobalParamPush", "") else (none, "")

/-- Embedding of `Backend::genExtraGlobalParamPull` (backend.cc:1720-1726): identical
shape, with its own name in the error. -/
def genExtraGlobalParamPull (loc : VarLoc) : Option String × String :=
  if !loc.zeroCopy then (some "genExtraGlobalParamPull", "") else (none, "")

/-- C9: for every variable location, `genExtraGlobalParamPush` and
`genExtraGlobalParamPull` throw the named ToBeImplemented error exactly when
the location does not include the ZERO_COPY flag, and in both the throwing
and the non-throwing case nothing is written to the output code stream. -/
theorem C9_extraGlobalParam_toBeImplemented (loc : VarLoc) :
    (genExtraGlobalParamPush loc).1
        = (if loc.zeroCopy then none else some "genExtraGlobalParamPush") ∧
    (genExtraGlobalParamPull loc).1
        = (if loc.zeroCopy then none else some "genExtraGlobalParamPull") ∧
    (genExtraGlobalParamPush loc).2 = "" ∧
    (genExtraGlobalParamPull loc).2 = "" := by
  cases h : loc.zeroCopy <;>
    simp [genExtraGlobalParamPush, genExtraGlobalParamPull, h]

/-! Section: Neuron update: spike staging and compaction
(backend.cc:2121-2125 and 356-424) -/

/-- The flags of a merged neuron-update group archetype consulted by the
spike-compaction emission. -/
structure NeuronArchetype where
  delayRequired : Bool
  trueSpikeRequired : Bool
  spikeEventRequired : Bool
  spikeTimeRequired : Bool
  thresholdConditionCode : String

/-- Embedding of `Backend::genEmitSpike` (backend.cc:2121-2125): reserve a slot in the
shared staging array with an atomic and store the spiking id there.
`idSubst` is `subs["id"]`; `suffix` is `""` for true spikes and `"Evnt"`
for spike-like events. -/
def genEmitSpike (idSubst suffix : String) : List String :=
  ["const unsigned int spk" ++ suffix ++ "Idx = atomic_add(&shSpk" ++ suffix
      ++ "Count, 1);",
   "shSpk" ++ suffix ++ "[spk" ++ suffix ++ "Idx] = " ++ idSubst ++ ";"]

/-- The post-handler spike-compaction emission of `Backend::genNeuronUpdate`
(backend.cc:356-424) for one merged neuron-update group, as a function of
its archetype; `wuVarUpdateLines` stands for the output of the
`wuVarUpdateHandler` call (backend.cc:417). -/
def genNeuronUpdateCompaction (a : NeuronArchetype)
    (wuVarUpdateLines : List String) : List String :=
  ["barrier(CLK_LOCAL_MEM_FENCE);"]
  ++ (if a.spikeEventRequired then
      ["if (localId == 1)", "\x7b", "if (shSpkEvntCount > 0)", "\x7b",
       "shPosSpkEvnt = atomic_add(&group->spkCntEvnt"
         ++ (if a.delayRequired then "[*group->spkQuePtr], shSpkEvntCount);"
             else "[0], shSpkEvntCount);"),
       "\x7d", "\x7d", "barrier(CLK_LOCAL_MEM_FENCE);"]
    else [])
  ++ (if a.thresholdConditionCode ≠ "" then
      ["if (localId == 0)", "\x7b", "if (shSpkCount > 0)", "\x7b",
       "shPosSpk = atomic_add(&group->spkCnt"
         ++ (if a.delayRequired && a.trueSpikeRequired then
               "[*group->spkQuePtr], shSpkCount);"
             else "[0], shSpkCount);"),
       "\x7d", "\x7d", "barrier(CLK_LOCAL_MEM_FENCE);"]
    else [])
  ++ (let queueOffset := if a.delayRequired then "writeDelayOffset + " else ""
      (if a.spikeEventRequired then
        ["if (localId < shSpkEvntCount)", "\x7b",
         "group->spkEvnt[" ++ queueOffset
           ++ "shPosSpkEvnt + localId] = shSpkEvnt[localId];",
         "\x7d"]
      else [])
      ++ (if a.thresholdConditionCode ≠ "" then
          let queueOffsetTrueSpk :=
            if a.trueSpikeRequired then queueOffset else ""
          ["if (localId < shSpkCount)", "\x7b",
           "const unsigned int n = shSpk[localId];"]
          ++ wuVarUpdateLines
          ++ ["group->spk[" ++ queueOffsetTrueSpk ++ "shPosSpk + localId] = n;"]
          ++ (if a.spikeTimeRequired then
                ["group->spk[" ++ queueOffset ++ "n] = t;"]
              else [])
          ++ ["\x7d"]
        else []))

set_option maxRecDepth 8192 in
/-- C1 (failing evaluation): for an archetype requiring delay, true spikes
and spike times, the compaction code writes the time into `group->spk`
(backend.cc:421) — no `sT` buffer is ever written — and for an archetype
requiring delay but not delayed true spikes, the true-spike count is
reserved at index 0, not `*group->spkQuePtr` (backend.cc:385-390). -/
theorem C1_spikeCompaction_code_eval :
    ("group->spk[writeDelayOffset + n] = t;"
        ∈ genNeuronUpdateCompaction ⟨true, true, false, true, "V >= Vthr"⟩ []) ∧
    (∀ line ∈ genNeuronUpdateCompaction ⟨true, true, false, true, "V >= Vthr"⟩ [],
      ¬ ("sT".data <:+: line.data)) ∧
    ("shPosSpk = atomic_add(&group->spkCnt[0], shSpkCount);"
        ∈ genNeuronUpdateCompaction ⟨true, false, false, true, "V >= Vthr"⟩ []) := by
  refine ⟨by decide, ?_, by decide⟩
  decide

/-! Section: Pre-neuron-reset kernel and `updateNeurons` (backend.cc:236-267,
474-490) -/

/-- A merged neuron-spike-queue-update group as consulted by the
pre-neuron-reset emission: its member count (`getGroups().size()`), the
archetype delay flag and delay-slot count, and the lines produced by
`genMergedGroupSpikeCountReset` (defined in `groupMerged.cc`, not under
`src/`, so kept abstract). -/
structure SpikeQueueGroup where
  numGroups : Nat
  delayRequired : Bool
  numDelaySlots : Nat
  resetLines : List String

/-- The spike-queue-pointer cycling statement (backend.cc:261); note the
double space after `spkQuePtr` in the source. -/
def spkQuePtrCycleLine (numDelaySlots : Nat) : String :=
  "*group->spkQuePtr  = (*group->spkQuePtr + 1) % " ++ toString numDelaySlots
    ++ ";"

/-- The block emitted for one merged group inside `preNeuronResetKernel`
(backend.cc:246-265), given its merged index `i` and the running
`idPreNeuronReset` value `start`. -/
def genPreNeuronResetGroupBlock (i start : Nat) (g : SpikeQueueGroup) :
    List String :=
  ["// merged" ++ toString i,
   (if start = 0 then "if(id < " ++ toString g.numGroups ++ ")"
    else "if(id >= " ++ toString start ++ " && id < "
      ++ toString (start + g.numGroups) ++ ")"),
   "\x7b",
   "__global struct MergedNeuronSpikeQueueUpdateGroup" ++ toString i
     ++ " *group = &d_mergedNeuronSpikeQueueUpdateGroup" ++ toString i
     ++ "[id - " ++ toString start ++ "]; "]
  ++ (if g.delayRequired then [spkQuePtrCycleLine g.numDelaySlots] else [])
  ++ g.resetLines
  ++ ["\x7d"]

/-- The `for(const auto &n : ...)` loop of the pre-neuron-reset kernel body
(backend.cc:246-266), threading the merged index and the accumulating
`idPreNeuronReset` (`+= n.getGroups().size()`, backend.cc:265).  Returns the
emitted lines and the final `idPreNeuronReset`. -/
def genPreNeuronResetLoop (i start : Nat) :
    List SpikeQueueGroup → List String × Nat
  | [] => ([], start)
  | g :: rest =>
    let tail := genPreNeuronResetLoop (i + 1) (start + g.numGroups) rest
    (genPreNeuronResetGroupBlock i start g ++ tail.1, tail.2)

/-- Embedding of `void updateNeurons(t)` (backend.cc:474-490): if the pre-neuron-reset
kernel has any threads it is enqueued first; then, if the neuron-update
kernel has any threads, `t` is set as its argument `numMergedGroups` and it
is enqueued.  `genKernelDimensions` (backend.cc:2127-2133) emits the
work-size lines before each enqueue. -/
def genKernelDimensionsLines (wg numThreads : Nat) : List String :=
  ["const cl::NDRange globalWorkSize("
      ++ toString (genKernelDimensionsGlobal wg numThreads) ++ ", 1);",
   "const cl::NDRange localWorkSize(" ++ toString wg ++ ", 1);"]

def enqueueKernelLine (kernelName : String) : String :=
  "CHECK_OPENCL_ERRORS(commandQueue.enqueueNDRangeKernel(" ++ kernelName
    ++ ", cl::NullRange, globalWorkSize, localWorkSize));"

def updateNeuronsBody (wgPre wgN idPreNeuronReset idStart numMergedGroups : Nat) :
    List String :=
  (if 0 < idPreNeuronReset then
      genKernelDimensionsLines wgPre idPreNeuronReset
        ++ [enqueueKernelLine "preNeuronResetKernel"]
    else [])
  ++ (if 0 < idStart then
      ["CHECK_OPENCL_ERRORS(updateNeuronsKernel.setArg("
          ++ toString numMergedGroups ++ ", t));"]
        ++ genKernelDimensionsLines wgN idStart
        ++ [enqueueKernelLine "updateNeuronsKernel"]
    else [])

/-- C7: the pre-neuron-reset kernel accumulates one thread per member of
each merged neuron-spike-queue-update group (the final `idPreNeuronReset` is
the sum of the member counts, each group guarded on a width equal to its
member count); a delay-requiring archetype makes the block execute
`*group->spkQuePtr  = (*group->spkQuePtr + 1) % N` (N the archetype's
delay-slot count) immediately followed by the merged-group spike-count
reset; and in `updateNeurons(t)` the pre-neuron-reset kernel is enqueued on
the shared command queue before the neuron-update kernel. -/
theorem C7_preNeuronReset_kernel (groups : List SpikeQueueGroup)
    (i start : Nat) (g : SpikeQueueGroup) (hDelay : g.delayRequired = true)
    (wgPre wgN idPreNeuronReset idStart numMergedGroups : Nat)
    (hPre : 0 < idPreNeuronReset) (hN : 0 < idStart) :
    (genPreNeuronResetLoop 0 0 groups).2
        = (groups.map (fun g => g.numGroups)).sum ∧
    genPreNeuronResetGroupBlock i start g
        = ["// merged" ++ toString i,
           (if start = 0 then "if(id < " ++ toString g.numGroups ++ ")"
            else "if(id >= " ++ toString start ++ " && id < "
              ++ toString (start + g.numGroups) ++ ")"),
           "\x7b",
           "__global struct MergedNeuronSpikeQueueUpdateGroup" ++ toString i
             ++ " *group = &d_mergedNeuronSpikeQueueUpdateGroup" ++ toString i
             ++ "[id - " ++ toString start ++ "]; "]
          ++ spkQuePtrCycleLine g.numDelaySlots :: g.resetLines ++ ["\x7d"] ∧
    updateNeuronsBody wgPre wgN idPreNeuronReset idStart numMergedGroups
        = genKernelDimensionsLines wgPre idPreNeuronReset
          ++ [enqueueKernelLine "preNeuronResetKernel"]
          ++ ["CHECK_OPENCL_ERRORS(updateNeuronsKernel.setArg("
                ++ toString numMergedGroups ++ ", t));"]
          ++ genKernelDimensionsLines wgN idStart
          ++ [enqueueKernelLine "updateNeuronsKernel"] := by
  refine ⟨?_, ?_, ?_⟩
  · have main : ∀ (gs : List SpikeQueueGroup) (i s : Nat),
        (genPreNeuronResetLoop i s gs).2
          = s + (gs.map (fun g => g.numGroups)).sum := by
      intro gs
      induction gs with
      | nil => intro i s; simp [genPreNeuronResetLoop]
      | cons g rest ih =>
        intro i s
        simp only [genPreNeuronResetLoop, List.map_cons, List.sum_cons, ih]
        omega
    simpa using main groups 0 0
  · simp [genPreNeuronResetGroupBlock, hDelay]
  · simp [updateNeuronsBody, hPre, hN]

/-- Witness for C7 at a concrete delayed group and positive thread counts. -/
theorem C7_preNeuronReset_kernel_witness :
    ((⟨2, true, 5, ["group->spkCnt[0] = 0;"]⟩ : SpikeQueueGroup).delayRequired
        = true ∧ 0 < 3 ∧ 0 < 64) ∧
    ((genPreNeuronResetLoop 0 0
          [⟨2, true, 5, ["group->spkCnt[0] = 0;"]⟩, ⟨1, false, 1, []⟩]).2
        = ([⟨2, true, 5, ["group->spkCnt[0] = 0;"]⟩,
            (⟨1, false, 1, []⟩ : SpikeQueueGroup)].map
            (fun g => g.numGroups)).sum ∧
      genPreNeuronResetGroupBlock 0 0 ⟨2, true, 5, ["group->spkCnt[0] = 0;"]⟩
        = ["// merged" ++ toString 0,
           (if 0 = 0 then "if(id < " ++ toString (2 : Nat) ++ ")"
            else "if(id >= " ++ toString (0 : Nat) ++ " && id < "
              ++ toString (0 + 2 : Nat) ++ ")"),
           "\x7b",
           "__global struct MergedNeuronSpikeQueueUpdateGroup" ++ toString 0
             ++ " *group = &d_mergedNeuronSpikeQueueUpdateGroup" ++ toString 0
             ++ "[id - " ++ toString 0 ++ "]; "]
          ++ spkQuePtrCycleLine 5 :: ["group->spkCnt[0] = 0;"] ++ ["\x7d"] ∧
      updateNeuronsBody 32 32 3 64 1
        = genKernelDimensionsLines 32 3
          ++ [enqueueKernelLine "preNeuronResetKernel"]
          ++ ["CHECK_OPENCL_ERRORS(updateNeuronsKernel.setArg("
                ++ toString 1 ++ ", t));"]
          ++ genKernelDimensionsLines 32 64
          ++ [enqueueKernelLine "updateNeuronsKernel"]) :=
  ⟨⟨rfl, by decide, by decide⟩,
    C7_preNeuronReset_kernel
      [⟨2, true, 5, ["group->spkCnt[0] = 0;"]⟩, ⟨1, false, 1, []⟩] 0 0
      ⟨2, true, 5, ["group->spkCnt[0] = 0;"]⟩ rfl 32 32 3 64 1
      (by decide) (by decide)⟩

/-! Section: Kernel parameter lists and host `setArg` indices
(backend.cc:84-103, 273-275, 485, 602, 740, 997, 1006) -/

/-- The device pointer name of merged group `i` of role `name`
(`d_merged<name>Group<i>`). -/
def mergedGroupArgName (name : String) (i : Nat) : String :=
  "d_merged" ++ name ++ "Group" ++ toString i

/-- Embedding of `genMergedGroupKernelParams` (backend.cc:84-94): one
`__global struct Merged<name>Group<i> *d_merged<name>Group<i>` parameter per
merged group, in merged-index order. -/
def genMergedGroupKernelParams (n : Nat) (name : String) : List String :=
  (List.range n).map (fun i =>
    "__global struct Merged" ++ name ++ "Group" ++ toString i ++ " *"
      ++ mergedGroupArgName name i)

/-- The device parameter list of a kernel that also takes the time scalar
(backend.cc:273-275, 601-603, 739-741): the merged-group parameters emitted
with `includeFinalComma = true`, followed by `<timePrecision> t`. -/
def deviceKernelParamsWithTime (n : Nat) (name timePrecision : String) :
    List String :=
  genMergedGroupKernelParams n name ++ [timePrecision ++ " t"]

/-- Embedding of `setMergedGroupKernelParams` (backend.cc:97-103): the host sets merged
group `i` as kernel argument `i`.  Modelled as (argument index, argument)
pairs. -/
def setMergedGroupKernelParams (n : Nat) (name : String) :
    List (Nat × String) :=
  (List.range n).map (fun i => (i, mergedGroupArgName name i))

/-- The full host argument assignment for a time-taking kernel: the merged
struct arguments followed by `setArg(<number of merged groups>, t)`
(backend.cc:485, 997, 1006). -/
def hostKernelArgs (n : Nat) (name : String) : List (Nat × String) :=
  setMergedGroupKernelParams n name ++ [(n, "t")]

/-- C10: for the time-taking kernels, the device parameter list is exactly
one merged-group struct pointer per merged group at positions 0..n-1 in
merged-index order followed by the time parameter at position n, and the
host launcher sets argument `i` to struct `i` and argument `n` to `t` — host
`setArg` indices agree with the device parameter positions: argument `i` of
the host assignment names precisely the pointer declared by device
parameter `i`. -/
theorem C10_kernelArg_agreement (n : Nat) (name timePrecision : String) :
    deviceKernelParamsWithTime n name timePrecision
        = (setMergedGroupKernelParams n name).map (fun p =>
            "__global struct Merged" ++ name ++ "Group" ++ toString p.1
              ++ " *" ++ p.2)
          ++ [timePrecision ++ " t"] ∧
    (hostKernelArgs n name).map Prod.fst = List.range (n + 1) ∧
    (hostKernelArgs n name).getLast? = some (n, "t") ∧
    (deviceKernelParamsWithTime n name timePrecision).length = n + 1 := by
  refine ⟨?_, ?_, ?_, ?_⟩
  · unfold deviceKernelParamsWithTime genMergedGroupKernelParams
      setMergedGroupKernelParams
    rw [List.map_map]
    rfl
  · unfold hostKernelArgs setMergedGroupKernelParams
    rw [List.map_append, List.map_map, List.range_succ]
    have : (Prod.fst ∘ fun i => ((i : Nat), mergedGroupArgName name i))
        = fun i => i := rfl
    rw [this]
    simp
  · unfold hostKernelArgs
    rw [List.getLast?_append]
    rfl
  · simp [deviceKernelParamsWithTime, genMergedGroupKernelParams]

end GeNN
